import Mathlib

/-!
Verification development for the dozer-duty puzzle engine.

The definitions below are a shallow embedding of the TypeScript sources:
the movement/undo/completion logic of `LevelComponent` (`handleMovement`,
`undoLastMove`, `checkLevelCompletion`, `isWall`, `initializeLevel`) and the
`validateLevel` function of `level.model.ts`.

Modelling conventions:
* The engine is only invoked between animations (`isAnimating()` gates), so
  every sprite position is settled on an exact integer grid cell and
  `Math.round` is the identity; positions are modelled as integer pairs.
* `startMoveTo(p)` is modelled by its settled effect: the sprite's position
  becomes `p`.
* `startPushAttempt` has no definition under the sources provided; it is
  modelled from the spec ("Blocked: an attempted move outcome where no state
  changed besides the actor's facing"): the settled position is unchanged.
* JavaScript `Array.find` / `indexOf` on distinct sprite objects is modelled
  with `List.enum.find?`; reference inequality `!==` between sprites is
  index inequality.
-/

namespace DozerDuty

/-- Integer grid position (`Position` in `position.model.ts`). -/
structure Pos where
  x : Int
  y : Int
deriving DecidableEq, Repr

/-- The four facings of the bulldozer (`Direction` in the sprites module;
the numeric degree values of the TS enum are irrelevant to the logic). -/
inductive Direction where
  | up
  | right
  | down
  | left
deriving DecidableEq, Repr

/-- `deltaX` of `handleMovement`'s switch over arrow keys. -/
def deltaX : Direction → Int
  | .up => 0
  | .down => 0
  | .left => -1
  | .right => 1

/-- `deltaY` of `handleMovement`'s switch over arrow keys. -/
def deltaY : Direction → Int
  | .up => -1
  | .down => 1
  | .left => 0
  | .right => 0

/-- A crate: position plus optional color (`Crate` in `crate.model.ts`;
also the settled state of a `CrateSprite`). -/
structure Crate where
  position : Pos
  color : Option String
deriving DecidableEq, Repr

/-- A goal cell (`EndPosition` in `end-position.model.ts`). -/
structure EndPosition where
  position : Pos
  color : String
deriving DecidableEq, Repr

/-- A level description (`Level` in `level.model.ts`). -/
structure Level where
  number : Int
  width : Int
  height : Int
  walls : List Pos
  crates : List Crate
  playerStartPosition : Pos
  endPositions : List EndPosition
deriving DecidableEq, Repr

/-- The single-slot undo record (`lastMove` field of `LevelComponent`). -/
structure UndoRecord where
  bulldozerPos : Pos
  bulldozerDirection : Direction
  cratePos : Option Pos
  crateIndex : Option Nat
deriving DecidableEq, Repr

/-- The mutable game state held by `LevelComponent`: bulldozer sprite
(settled position and facing), crate sprites, completion flag, move counter
and the undo slot. -/
structure GameState where
  bulldozerPos : Pos
  bulldozerDir : Direction
  crates : List Crate
  isLevelComplete : Bool
  moveCount : Nat
  lastMove : Option UndoRecord
deriving DecidableEq, Repr

/-- `isWall` of `LevelComponent`. -/
def isWall (lv : Level) (p : Pos) : Bool :=
  lv.walls.any fun w => w.x == p.x && w.y == p.y

/-- Observable outcome of one `handleMovement` call: early no-op return
(level complete), a blocked push attempt (`startPushAttempt` paths), or a
performed move. -/
inductive MoveOutcome where
  | completeNoop
  | blocked
  | moved
deriving DecidableEq, Repr

/-- Target cell of a move: current position plus the direction deltas. -/
def targetOf (s : GameState) (d : Direction) : Pos :=
  ⟨s.bulldozerPos.x + deltaX d, s.bulldozerPos.y + deltaY d⟩

/-- The pushed crate's destination: one further cell in the direction. -/
def crateTargetOf (s : GameState) (d : Direction) : Pos :=
  ⟨(targetOf s d).x + deltaX d, (targetOf s d).y + deltaY d⟩

/-- The inline bounds test of `handleMovement`
(`pos.x < 0 || pos.x >= width || pos.y < 0 || pos.y >= height`). -/
def oobB (lv : Level) (p : Pos) : Bool :=
  decide (p.x < 0) || decide (p.x ≥ lv.width) ||
    decide (p.y < 0) || decide (p.y ≥ lv.height)

/-- The `anotherCrate` lookup of `handleMovement`: some crate other than
the one at index `i` sits at `p` (`!==` on sprites is index inequality). -/
def anotherCrateAt (cs : List Crate) (i : Nat) (p : Pos) : Bool :=
  cs.enum.any fun jc => jc.1 != i && jc.2.position == p

/-- `handleMovement` of `LevelComponent` (part_001), paired with the
outcome of the call.  Mirrors the source order: early return when the level
is complete; `setDirection` before any legality check; bounds check, wall
check; crate lookup; crate-target bounds/wall/other-crate checks; then the
state mutations (`lastMove` slot, crate and bulldozer `startMoveTo`, move
counter increment). -/
def handleMovementAux (lv : Level) (s : GameState) (d : Direction) :
    GameState × MoveOutcome :=
  if s.isLevelComplete then (s, .completeNoop)
  else
    let s1 : GameState := { s with bulldozerDir := d }
    let currentPos := s.bulldozerPos
    let targetPos : Pos := targetOf s d
    if oobB lv targetPos then
      (s1, .blocked)
    else if isWall lv targetPos then
      (s1, .blocked)
    else
      let previousBulldozerPos := currentPos
      -- the source reads `getDirection()` here, after `setDirection`
      let previousBulldozerDirection := s1.bulldozerDir
      match s1.crates.enum.find? (fun jc => jc.2.position == targetPos) with
      | some (i, crateAtTarget) =>
        let crateTargetPos : Pos := crateTargetOf s d
        if oobB lv crateTargetPos then
          (s1, .blocked)
        else if isWall lv crateTargetPos then
          (s1, .blocked)
        else if anotherCrateAt s1.crates i crateTargetPos then
          (s1, .blocked)
        else
          ({ s1 with
              crates := s1.crates.set i { crateAtTarget with position := crateTargetPos },
              lastMove := some
                { bulldozerPos := previousBulldozerPos,
                  bulldozerDirection := previousBulldozerDirection,
                  cratePos := some crateAtTarget.position,
                  crateIndex := some i },
              bulldozerPos := targetPos,
              moveCount := s1.moveCount + 1 }, .moved)
      | none =>
          ({ s1 with
              lastMove := some
                { bulldozerPos := previousBulldozerPos,
                  bulldozerDirection := previousBulldozerDirection,
                  cratePos := none,
                  crateIndex := none },
              bulldozerPos := targetPos,
              moveCount := s1.moveCount + 1 }, .moved)

/-- The state after one `handleMovement` call. -/
def handleMovement (lv : Level) (s : GameState) (d : Direction) : GameState :=
  (handleMovementAux lv s d).1

/-- The outcome of one `handleMovement` call. -/
def moveOutcome (lv : Level) (s : GameState) (d : Direction) : MoveOutcome :=
  (handleMovementAux lv s d).2

/-- The crate-restoring part of `undoLastMove`: if the record names a crate
index and position, and the index is live (`if (crate)` in the source), put
that crate back. -/
def restoreCrates (cs : List Crate) (m : UndoRecord) : List Crate :=
  match m.cratePos, m.crateIndex with
  | some cp, some ci =>
    match cs.get? ci with
    | some c => cs.set ci { c with position := cp }
    | none => cs
  | _, _ => cs

/-- `undoLastMove` of `LevelComponent`: no-op without a record; otherwise
restore bulldozer position and facing from the record, restore the named
crate if any, clear the record, and decrement the counter (floored at 0). -/
def undoLastMove (s : GameState) : GameState :=
  match s.lastMove with
  | none => s
  | some m =>
    { s with
        bulldozerPos := m.bulldozerPos,
        bulldozerDir := m.bulldozerDirection,
        crates := restoreCrates s.crates m,
        lastMove := none,
        moveCount := if s.moveCount > 0 then s.moveCount - 1 else s.moveCount }

/-- The `every` body of `checkLevelCompletion`: each end position must hold
a crate (first sprite found at that cell) of matching color.  A neutral
crate has color `none`, which never equals `some endPos.color`. -/
def allEndPositionsFilled (lv : Level) (cs : List Crate) : Bool :=
  lv.endPositions.all fun endPos =>
    match cs.find? (fun c => c.position == endPos.position) with
    | none => false
    | some crateAtPosition => crateAtPosition.color == some endPos.color

/-- `checkLevelCompletion` of `LevelComponent`: once complete it returns
early; otherwise it sets the completion flag iff all end positions are
filled. -/
def checkLevelCompletion (lv : Level) (s : GameState) : GameState :=
  if s.isLevelComplete then s
  else if allEndPositionsFilled lv s.crates then
    { s with isLevelComplete := true }
  else s

/-- Models `initializeLevel` of `LevelComponent`: fresh bulldozer at the
start position facing Down, fresh crate sprites from the level, completion
flag and counter reset.  The source does not reset the `lastMove` slot, so
it is carried over from the previous component state. -/
def initLevelState (lv : Level) (prev : GameState) : GameState :=
  { bulldozerPos := lv.playerStartPosition,
    bulldozerDir := .down,
    crates := lv.crates.map fun c => { position := c.position, color := c.color },
    isLevelComplete := false,
    moveCount := 0,
    lastMove := prev.lastMove }

/-- A component state before any level is loaded (fresh session: the
`lastMove` field of a newly constructed `LevelComponent` is `undefined`). -/
def freshComponent : GameState :=
  { bulldozerPos := ⟨0, 0⟩, bulldozerDir := .down, crates := [],
    isLevelComplete := false, moveCount := 0, lastMove := none }

/-- A user action reaching the engine: an arrow-key move or Ctrl+Z undo.
A successful move is followed (after the animation settles) by the deferred
`checkLevelCompletion` call; a blocked or no-op move returns before
scheduling it, and `checkLevelCompletion` is then the identity anyway. -/
inductive GAction where
  | move (d : Direction)
  | undo
deriving DecidableEq, Repr

/-- One session step: the key handler's effect on the settled state. -/
def applyAction (lv : Level) (s : GameState) : GAction → GameState
  | .move d => checkLevelCompletion lv (handleMovement lv s d)
  | .undo => undoLastMove s

/-- A whole sequence of session steps. -/
def runActions (lv : Level) (s : GameState) (as : List GAction) : GameState :=
  as.foldl (applyAction lv) s

/-- The in-bounds test used by `validateLevel`'s `validatePosition`. -/
def posInBounds (lv : Level) (p : Pos) : Bool :=
  !(p.x < 0 || p.x ≥ lv.width || p.y < 0 || p.y ≥ lv.height)

/-- `validatePosition` inside `validateLevel` of `level.model.ts`. -/
def validatePosition (lv : Level) (p : Pos) (name : String) :
    Except String Unit :=
  if p.x < 0 || p.x ≥ lv.width || p.y < 0 || p.y ≥ lv.height then
    .error ("Invalid " ++ name ++ " position (" ++ toString p.x ++ ", " ++
      toString p.y ++ ") in level " ++ toString lv.number ++
      ". Must be within field bounds (0-" ++ toString (lv.width - 1) ++
      ", 0-" ++ toString (lv.height - 1) ++ ").")
  else .ok ()

/-- The `forEach` loops of `validateLevel` applying `validatePosition` to a
list of positions, with the running index in the name, stopping at the
first failure (a thrown exception aborts the whole call). -/
def validatePositionList (lv : Level) (name : String) (i : Nat) :
    List Pos → Except String Unit
  | [] => .ok ()
  | p :: rest =>
    match validatePosition lv p (name ++ " " ++ toString i) with
    | .error e => .error e
    | .ok _ => validatePositionList lv name (i + 1) rest

/-- String order used to model JavaScript's default `Array.sort` on the
color strings (any linear order gives the same sorted-equality test). -/
def strLe (a b : String) : Bool := a ≤ b

/-- `validateLevel` of `level.model.ts`: field size checks, colored-crate /
end-position count check, sorted color list comparison, then position
bounds checks in source order; returns `true` when everything passes. -/
def validateLevel (lv : Level) : Except String Bool :=
  if lv.width < 1 || lv.width > 32 then
    .error ("Invalid level width: " ++ toString lv.width ++
      ". Must be between 1 and 32.")
  else if lv.height < 1 || lv.height > 32 then
    .error ("Invalid level height: " ++ toString lv.height ++
      ". Must be between 1 and 32.")
  else
    let coloredCrates := lv.crates.filter fun c => c.color ≠ none
    if lv.endPositions.length ≠ coloredCrates.length then
      .error ("Invalid level " ++ toString lv.number ++
        ": Number of end positions (" ++ toString lv.endPositions.length ++
        ") must equal number of colored crates (" ++
        toString coloredCrates.length ++ ").")
    else
      let crateColors := (coloredCrates.filterMap fun c => c.color).mergeSort strLe
      let endPositionColors := (lv.endPositions.map fun e => e.color).mergeSort strLe
      if crateColors ≠ endPositionColors then
        .error ("Invalid level " ++ toString lv.number ++
          ": End position colors must match crate colors. Crate colors: [" ++
          String.intercalate ", " crateColors ++ "], End position colors: [" ++
          String.intercalate ", " endPositionColors ++ "]")
      else
        match validatePosition lv lv.playerStartPosition "player start" with
        | .error e => .error e
        | .ok _ =>
          match validatePositionList lv "wall" 0 lv.walls with
          | .error e => .error e
          | .ok _ =>
            match validatePositionList lv "crate" 0 (lv.crates.map fun c => c.position) with
            | .error e => .error e
            | .ok _ =>
              match validatePositionList lv "end position" 0
                  (lv.endPositions.map fun e => e.position) with
              | .error e => .error e
              | .ok _ => .ok true

/-- No two crates on the same grid cell. -/
def DistinctCrates (cs : List Crate) : Prop :=
  ∀ i j : Fin cs.length, i.val ≠ j.val →
    (cs.get i).position ≠ (cs.get j).position

instance (cs : List Crate) : Decidable (DistinctCrates cs) := by
  unfold DistinctCrates
  infer_instance

/-- The completion condition as the spec states it (for comparison with
`allEndPositionsFilled`): every goal has a crate at its cell with the
goal's color. -/
def completionSpec (lv : Level) (cs : List Crate) : Prop :=
  ∀ e ∈ lv.endPositions, ∃ c ∈ cs,
    c.position = e.position ∧ c.color = some e.color

instance (lv : Level) (cs : List Crate) : Decidable (completionSpec lv cs) := by
  unfold completionSpec
  infer_instance

theorem aux_complete (lv : Level) (s : GameState) (d : Direction)
    (hc : s.isLevelComplete = true) :
    handleMovementAux lv s d = (s, .completeNoop) := by
  simp [handleMovementAux, hc]

theorem aux_oob (lv : Level) (s : GameState) (d : Direction)
    (hc : s.isLevelComplete = false) (h : oobB lv (targetOf s d) = true) :
    handleMovementAux lv s d = ({ s with bulldozerDir := d }, .blocked) := by
  simp [handleMovementAux, hc, h]

theorem aux_wall (lv : Level) (s : GameState) (d : Direction)
    (hc : s.isLevelComplete = false) (h : oobB lv (targetOf s d) = false)
    (hw : isWall lv (targetOf s d) = true) :
    handleMovementAux lv s d = ({ s with bulldozerDir := d }, .blocked) := by
  simp [handleMovementAux, hc, h, hw]

theorem aux_free (lv : Level) (s : GameState) (d : Direction)
    (hc : s.isLevelComplete = false) (h : oobB lv (targetOf s d) = false)
    (hw : isWall lv (targetOf s d) = false)
    (hfind : s.crates.enum.find? (fun jc => jc.2.position == targetOf s d) = none) :
    handleMovementAux lv s d =
      ({ s with
          bulldozerDir := d,
          bulldozerPos := targetOf s d,
          moveCount := s.moveCount + 1,
          lastMove := some
            { bulldozerPos := s.bulldozerPos, bulldozerDirection := d,
              cratePos := none, crateIndex := none } }, .moved) := by
  simp [handleMovementAux, hc, h, hw, hfind]

theorem aux_push_oob (lv : Level) (s : GameState) (d : Direction) (i : Nat) (c : Crate)
    (hc : s.isLevelComplete = false) (h : oobB lv (targetOf s d) = false)
    (hw : isWall lv (targetOf s d) = false)
    (hfind : s.crates.enum.find? (fun jc => jc.2.position == targetOf s d) = some (i, c))
    (h2 : oobB lv (crateTargetOf s d) = true) :
    handleMovementAux lv s d = ({ s with bulldozerDir := d }, .blocked) := by
  simp [handleMovementAux, hc, h, hw, hfind, h2]

theorem aux_push_wall (lv : Level) (s : GameState) (d : Direction) (i : Nat) (c : Crate)
    (hc : s.isLevelComplete = false) (h : oobB lv (targetOf s d) = false)
    (hw : isWall lv (targetOf s d) = false)
    (hfind : s.crates.enum.find? (fun jc => jc.2.position == targetOf s d) = some (i, c))
    (h2 : oobB lv (crateTargetOf s d) = false)
    (hw2 : isWall lv (crateTargetOf s d) = true) :
    handleMovementAux lv s d = ({ s with bulldozerDir := d }, .blocked) := by
  simp [handleMovementAux, hc, h, hw, hfind, h2, hw2]

theorem aux_push_other (lv : Level) (s : GameState) (d : Direction) (i : Nat) (c : Crate)
    (hc : s.isLevelComplete = false) (h : oobB lv (targetOf s d) = false)
    (hw : isWall lv (targetOf s d) = false)
    (hfind : s.crates.enum.find? (fun jc => jc.2.position == targetOf s d) = some (i, c))
    (h2 : oobB lv (crateTargetOf s d) = false)
    (hw2 : isWall lv (crateTargetOf s d) = false)
    (han : anotherCrateAt s.crates i (crateTargetOf s d) = true) :
    handleMovementAux lv s d = ({ s with bulldozerDir := d }, .blocked) := by
  simp [handleMovementAux, hc, h, hw, hfind, h2, hw2, han]

theorem aux_push (lv : Level) (s : GameState) (d : Direction) (i : Nat) (c : Crate)
    (hc : s.isLevelComplete = false) (h : oobB lv (targetOf s d) = false)
    (hw : isWall lv (targetOf s d) = false)
    (hfind : s.crates.enum.find? (fun jc => jc.2.position == targetOf s d) = some (i, c))
    (h2 : oobB lv (crateTargetOf s d) = false)
    (hw2 : isWall lv (crateTargetOf s d) = false)
    (han : anotherCrateAt s.crates i (crateTargetOf s d) = false) :
    handleMovementAux lv s d =
      ({ s with
          bulldozerDir := d,
          crates := s.crates.set i { c with position := crateTargetOf s d },
          bulldozerPos := targetOf s d,
          moveCount := s.moveCount + 1,
          lastMove := some
            { bulldozerPos := s.bulldozerPos, bulldozerDirection := d,
              cratePos := some c.position, crateIndex := some i } }, .moved) := by
  simp [handleMovementAux, hc, h, hw, hfind, h2, hw2, han]

/-- The geometric conditions under which `handleMovement` blocks a move. -/
def BlockedConditions (lv : Level) (s : GameState) (d : Direction) : Prop :=
  oobB lv (targetOf s d) = true ∨ isWall lv (targetOf s d) = true ∨
    ∃ i c,
      s.crates.enum.find? (fun jc => jc.2.position == targetOf s d) = some (i, c) ∧
      (oobB lv (crateTargetOf s d) = true ∨ isWall lv (crateTargetOf s d) = true ∨
        anotherCrateAt s.crates i (crateTargetOf s d) = true)

theorem aux_blocked_iff (lv : Level) (s : GameState) (d : Direction)
    (hc : s.isLevelComplete = false) :
    (handleMovementAux lv s d).2 = .blocked ↔ BlockedConditions lv s d := by
  unfold BlockedConditions
  cases hob : oobB lv (targetOf s d) with
  | true =>
    rw [aux_oob lv s d hc hob]
    simp
  | false =>
    cases hw : isWall lv (targetOf s d) with
    | true =>
      rw [aux_wall lv s d hc hob hw]
      simp
    | false =>
      cases hfind : s.crates.enum.find? (fun jc => jc.2.position == targetOf s d) with
      | none =>
        rw [aux_free lv s d hc hob hw hfind]
        simp
      | some ic =>
        obtain ⟨i, c⟩ := ic
        cases h2 : oobB lv (crateTargetOf s d) with
        | true =>
          rw [aux_push_oob lv s d i c hc hob hw hfind h2]
          exact iff_of_true rfl (Or.inr (Or.inr ⟨i, c, rfl, Or.inl rfl⟩))
        | false =>
          cases hw2 : isWall lv (crateTargetOf s d) with
          | true =>
            rw [aux_push_wall lv s d i c hc hob hw hfind h2 hw2]
            exact iff_of_true rfl (Or.inr (Or.inr ⟨i, c, rfl, Or.inr (Or.inl rfl)⟩))
          | false =>
            cases han : anotherCrateAt s.crates i (crateTargetOf s d) with
            | true =>
              rw [aux_push_other lv s d i c hc hob hw hfind h2 hw2 han]
              exact iff_of_true rfl (Or.inr (Or.inr ⟨i, c, rfl, Or.inr (Or.inr han)⟩))
            | false =>
              rw [aux_push lv s d i c hc hob hw hfind h2 hw2 han]
              simp [han]

theorem aux_blocked_state (lv : Level) (s : GameState) (d : Direction)
    (hb : (handleMovementAux lv s d).2 = .blocked) :
    (handleMovementAux lv s d).1 = { s with bulldozerDir := d } := by
  cases hc : s.isLevelComplete with
  | true =>
    rw [aux_complete lv s d hc] at hb
    exact absurd hb (by simp)
  | false =>
    cases hob : oobB lv (targetOf s d) with
    | true => rw [aux_oob lv s d hc hob, hc]
    | false =>
      cases hw : isWall lv (targetOf s d) with
      | true => rw [aux_wall lv s d hc hob hw, hc]
      | false =>
        cases hfind : s.crates.enum.find? (fun jc => jc.2.position == targetOf s d) with
        | none =>
          rw [aux_free lv s d hc hob hw hfind] at hb
          exact absurd hb (by simp)
        | some ic =>
          obtain ⟨i, c⟩ := ic
          cases h2 : oobB lv (crateTargetOf s d) with
          | true => rw [aux_push_oob lv s d i c hc hob hw hfind h2, hc]
          | false =>
            cases hw2 : isWall lv (crateTargetOf s d) with
            | true => rw [aux_push_wall lv s d i c hc hob hw hfind h2 hw2, hc]
            | false =>
              cases han : anotherCrateAt s.crates i (crateTargetOf s d) with
              | true => rw [aux_push_other lv s d i c hc hob hw hfind h2 hw2 han, hc]
              | false =>
                rw [aux_push lv s d i c hc hob hw hfind h2 hw2 han] at hb
                exact absurd hb (by simp)

theorem aux_dir_irrel (lv : Level) (s : GameState) (x d : Direction)
    (hc : s.isLevelComplete = false) :
    handleMovementAux lv { s with bulldozerDir := x } d = handleMovementAux lv s d := by
  simp [handleMovementAux, hc, targetOf, crateTargetOf]

/-- A 4-wide, 4-high level with walls on the border only, a red crate at
(2,1), the goal at (3,1) and the player start at (1,1): the level named by
the spec's first scenario, read with `width=4,height=4`. -/
def lv4 : Level :=
  { number := 1, width := 4, height := 4,
    walls := [⟨0,0⟩, ⟨1,0⟩, ⟨2,0⟩, ⟨3,0⟩,
              ⟨0,1⟩, ⟨3,1⟩,
              ⟨0,2⟩, ⟨3,2⟩,
              ⟨0,3⟩, ⟨1,3⟩, ⟨2,3⟩, ⟨3,3⟩],
    crates := [⟨⟨2,1⟩, some "#FF0000"⟩],
    playerStartPosition := ⟨1,1⟩,
    endPositions := [⟨⟨3,1⟩, "#FF0000"⟩] }

/-- The same scenario read with a 4×4 interior: a 6-wide, 6-high level with
walls on the border only, so that (3,1) is an interior cell. -/
def lv6 : Level :=
  { number := 1, width := 6, height := 6,
    walls := [⟨0,0⟩, ⟨1,0⟩, ⟨2,0⟩, ⟨3,0⟩, ⟨4,0⟩, ⟨5,0⟩,
              ⟨0,1⟩, ⟨5,1⟩,
              ⟨0,2⟩, ⟨5,2⟩,
              ⟨0,3⟩, ⟨5,3⟩,
              ⟨0,4⟩, ⟨5,4⟩,
              ⟨0,5⟩, ⟨1,5⟩, ⟨2,5⟩, ⟨3,5⟩, ⟨4,5⟩, ⟨5,5⟩],
    crates := [⟨⟨2,1⟩, some "#FF0000"⟩],
    playerStartPosition := ⟨1,1⟩,
    endPositions := [⟨⟨3,1⟩, "#FF0000"⟩] }

/-- Initial state of `lv4` in a fresh session. -/
def s4 : GameState := initLevelState lv4 freshComponent

/-- Initial state of `lv6` in a fresh session. -/
def s6 : GameState := initLevelState lv6 freshComponent

/-- C1: when a move is legal (level not complete, target in bounds and not
a wall), the target holds a crate, and that crate's next cell is in bounds,
not a wall and free of other crates, the move relocates exactly that crate
one cell in the move direction, relocates the actor to the crate's
pre-move position, and moves no other crate. -/
theorem crate_push_moves_exactly_one_crate (lv : Level) (s : GameState)
    (d : Direction) (i : Nat) (c : Crate)
    (hc : s.isLevelComplete = false)
    (hob : oobB lv (targetOf s d) = false)
    (hw : isWall lv (targetOf s d) = false)
    (hfind : s.crates.enum.find? (fun jc => jc.2.position == targetOf s d) = some (i, c))
    (h2 : oobB lv (crateTargetOf s d) = false)
    (hw2 : isWall lv (crateTargetOf s d) = false)
    (han : anotherCrateAt s.crates i (crateTargetOf s d) = false) :
    c.position = targetOf s d ∧
    crateTargetOf s d = ⟨c.position.x + deltaX d, c.position.y + deltaY d⟩ ∧
    (handleMovement lv s d).crates =
      s.crates.set i { c with position := crateTargetOf s d } ∧
    (handleMovement lv s d).bulldozerPos = c.position ∧
    (∀ j : Nat, j ≠ i → (handleMovement lv s d).crates.get? j = s.crates.get? j) ∧
    moveOutcome lv s d = .moved := by
  have hpos : c.position = targetOf s d := by
    have := List.find?_some hfind
    simpa using this
  refine ⟨hpos, ?_, ?_, ?_, ?_, ?_⟩
  · rw [hpos]; rfl
  · rw [handleMovement, aux_push lv s d i c hc hob hw hfind h2 hw2 han]
  · rw [handleMovement, aux_push lv s d i c hc hob hw hfind h2 hw2 han, hpos]
  · intro j hj
    rw [handleMovement, aux_push lv s d i c hc hob hw hfind h2 hw2 han]
    simp [List.getElem?_set_ne (by omega : i ≠ j)]
  · rw [moveOutcome, aux_push lv s d i c hc hob hw hfind h2 hw2 han]

/-- Witness for C1: pushing the red crate right in `lv6`. -/
theorem crate_push_moves_exactly_one_crate_witness :
    (handleMovement lv6 s6 .right).crates =
      s6.crates.set 0 { position := ⟨3,1⟩, color := some "#FF0000" } ∧
    (handleMovement lv6 s6 .right).bulldozerPos = ⟨2,1⟩ := by
  have h := crate_push_moves_exactly_one_crate lv6 s6 .right 0
    ⟨⟨2,1⟩, some "#FF0000"⟩ (by decide) (by decide) (by decide) (by decide)
    (by decide) (by decide) (by decide)
  exact ⟨h.2.2.1, h.2.2.2.1⟩

/-- C2: a blocked move (target out of bounds or a wall, or the pushed
crate's destination out of bounds, a wall, or another crate) updates the
actor's facing to the requested direction and changes nothing else: not
the actor position, the crates, the move counter, the completion flag, nor
the undo record. -/
theorem blocked_move_only_updates_facing (lv : Level) (s : GameState)
    (d : Direction) (hc : s.isLevelComplete = false) :
    (moveOutcome lv s d = .blocked ↔ BlockedConditions lv s d) ∧
    (moveOutcome lv s d = .blocked →
      handleMovement lv s d = { s with bulldozerDir := d }) := by
  exact ⟨aux_blocked_iff lv s d hc, fun hb => aux_blocked_state lv s d hb⟩

/-- Witness for C2: in `lv4` a move Left from (1,1) runs into the border
wall at (0,1); the state change is exactly the facing update. -/
theorem blocked_move_only_updates_facing_witness :
    moveOutcome lv4 s4 .left = .blocked ∧
    handleMovement lv4 s4 .left = { s4 with bulldozerDir := .left } := by
  have h := blocked_move_only_updates_facing lv4 s4 .left (by decide)
  have hb : moveOutcome lv4 s4 .left = .blocked := by decide
  exact ⟨hb, h.2 hb⟩

/-- C9: a blocked attempt is idempotent: repeating the same direction on
the resulting state yields Blocked again and the same state. -/
theorem blocked_move_idempotent (lv : Level) (s : GameState) (d : Direction)
    (hb : moveOutcome lv s d = .blocked) :
    moveOutcome lv (handleMovement lv s d) d = .blocked ∧
    handleMovement lv (handleMovement lv s d) d = handleMovement lv s d := by
  have hc : s.isLevelComplete = false := by
    cases hcc : s.isLevelComplete
    · rfl
    · rw [moveOutcome, aux_complete lv s d hcc] at hb
      exact absurd hb (by simp)
  have hstate : (handleMovementAux lv s d).1 = { s with bulldozerDir := d } :=
    aux_blocked_state lv s d hb
  have hrepeat : handleMovementAux lv (handleMovement lv s d) d = handleMovementAux lv s d := by
    rw [handleMovement, hstate]
    exact aux_dir_irrel lv s d d hc
  constructor
  · rw [moveOutcome, hrepeat]
    exact hb
  · conv_lhs => rw [handleMovement, hrepeat]
    rfl

/-- Witness for C9: repeating the blocked Left move in `lv4`. -/
theorem blocked_move_idempotent_witness :
    moveOutcome lv4 (handleMovement lv4 s4 .left) .left = .blocked ∧
    handleMovement lv4 (handleMovement lv4 s4 .left) .left = handleMovement lv4 s4 .left :=
  blocked_move_idempotent lv4 s4 .left (by decide)

/-- `find?` returns the crate at `p` when exactly one crate sits there. -/
theorem find?_crate_at_unique :
    ∀ (cs : List Crate) (p : Pos) (i : Nat) (hi : i < cs.length),
      (cs.get ⟨i, hi⟩).position = p →
      (∀ (j : Nat) (hj : j < cs.length), j ≠ i → (cs.get ⟨j, hj⟩).position ≠ p) →
      cs.find? (fun c => c.position == p) = some (cs.get ⟨i, hi⟩)
  | [], _, i, hi, _, _ => absurd hi (by simp)
  | a :: tl, p, 0, hi, hpos, _ => by
    simp only [List.get] at hpos
    rw [List.find?_cons_of_pos _ (by simp [hpos])]
    simp
  | a :: tl, p, n + 1, hi, hpos, huniq => by
    have ha : a.position ≠ p := by
      have := huniq 0 (by simp) (by simp)
      simpa using this
    rw [List.find?_cons_of_neg _ (by simpa using ha)]
    have htl := find?_crate_at_unique tl p n (by simpa using hi)
      (by simpa using hpos)
      (fun j hj hne => by
        have := huniq (j + 1) (by simpa using hj) (by simpa using hne)
        simpa using this)
    simpa using htl

/-- A level with one red goal at (1,1), used to refute the literal reading
of the completion-check claim on states with stacked crates. -/
def lvStack : Level :=
  { number := 2, width := 4, height := 4, walls := [],
    crates := [⟨⟨1,1⟩, none⟩, ⟨⟨1,1⟩, some "#FF0000"⟩],
    playerStartPosition := ⟨0,0⟩,
    endPositions := [⟨⟨1,1⟩, "#FF0000"⟩] }

/-- Two crates stacked on (1,1): the first is neutral, the second red. -/
def stackedCrates : List Crate := [⟨⟨1,1⟩, none⟩, ⟨⟨1,1⟩, some "#FF0000"⟩]

/-- Counterexample to C3 as stated for arbitrary game states: with two
crates stacked on the goal cell (first neutral, second red), a crate of
matching color exists at the goal, yet `checkLevelCompletion`'s check is
false, because the source's `find` inspects only the first crate at the
cell. -/
theorem completion_check_iff_counterexample :
    ¬ (allEndPositionsFilled lvStack stackedCrates = true ↔
        completionSpec lvStack stackedCrates) := by
  decide

/-- C3 (amended with the engine invariant that crates occupy pairwise
distinct cells): the completion check is true iff every goal holds a crate
of its color — a neutral crate never qualifies since its color is `none` —
and removing or recoloring any one satisfying crate makes it false. -/
theorem completion_check_spec (lv : Level) (cs : List Crate)
    (hd : DistinctCrates cs) :
    (allEndPositionsFilled lv cs = true ↔ completionSpec lv cs) ∧
    (∀ (i : Nat) (hi : i < cs.length) (e : EndPosition),
      e ∈ lv.endPositions →
      (cs.get ⟨i, hi⟩).position = e.position →
      (cs.get ⟨i, hi⟩).color = some e.color →
      allEndPositionsFilled lv (cs.eraseIdx i) = false ∧
      ∀ c2 : Option String, c2 ≠ (cs.get ⟨i, hi⟩).color →
        allEndPositionsFilled lv (cs.set i { cs.get ⟨i, hi⟩ with color := c2 }) = false) := by
  constructor
  · constructor
    · intro hall e he
      rw [allEndPositionsFilled, List.all_eq_true] at hall
      have hbody := hall e he
      cases hfind : cs.find? (fun c => c.position == e.position) with
      | none => rw [hfind] at hbody; exact absurd hbody (by simp)
      | some c =>
        rw [hfind] at hbody
        refine ⟨c, List.mem_of_find?_eq_some hfind, ?_, ?_⟩
        · have := List.find?_some hfind
          simpa using this
        · simpa using hbody
    · intro hspec
      rw [allEndPositionsFilled, List.all_eq_true]
      intro e he
      obtain ⟨c, hmem, hpos, hcol⟩ := hspec e he
      obtain ⟨i, hi, hget⟩ := List.mem_iff_getElem.mp hmem
      have hfind := find?_crate_at_unique cs e.position i hi
        (by simpa [hget] using hpos)
        (fun j hj hne => by
          have := hd ⟨j, hj⟩ ⟨i, hi⟩ (by simpa using hne)
          simp only [List.get_eq_getElem] at this
          rw [hget, hpos] at this
          exact this)
      rw [hfind]
      simp only [List.get_eq_getElem, hget, hcol]
      simp
  · intro i hi e he hpos hcol
    have hposE : cs[i].position = e.position := hpos
    have hcolE : cs[i].color = some e.color := hcol
    constructor
    · rw [Bool.eq_false_iff]
      intro hall
      rw [allEndPositionsFilled, List.all_eq_true] at hall
      have hbody := hall e he
      have hlen : (cs.eraseIdx i).length = cs.length - 1 := by
        rw [List.length_eraseIdx]
        simp [hi]
      have hnone : (cs.eraseIdx i).find? (fun c => c.position == e.position) = none := by
        rw [List.find?_eq_none]
        intro c' hmem
        obtain ⟨j, hj, hget⟩ := List.mem_iff_getElem.mp hmem
        rw [List.getElem_eraseIdx] at hget
        by_cases hcase : j < i
        · rw [dif_pos hcase] at hget
          have := hd ⟨j, by omega⟩ ⟨i, hi⟩ (by simp; omega)
          simp only [List.get_eq_getElem] at this
          rw [hposE, hget] at this
          simpa using this
        · rw [dif_neg hcase] at hget
          have hjlen : j + 1 < cs.length := by omega
          have := hd ⟨j + 1, hjlen⟩ ⟨i, hi⟩ (by simp; omega)
          simp only [List.get_eq_getElem] at this
          rw [hposE, hget] at this
          simpa using this
      rw [hnone] at hbody
      exact absurd hbody (by simp)
    · intro c2 hc2
      rw [Bool.eq_false_iff]
      intro hall
      rw [allEndPositionsFilled, List.all_eq_true] at hall
      have hbody := hall e he
      have hilen : i < (cs.set i { cs.get ⟨i, hi⟩ with color := c2 }).length := by
        simpa using hi
      have hfind := find?_crate_at_unique
        (cs.set i { cs.get ⟨i, hi⟩ with color := c2 }) e.position i hilen
        (by
          simp only [List.get_eq_getElem, List.getElem_set_self]
          exact hposE)
        (fun j hj hne => by
          have hj' : j < cs.length := by simpa using hj
          have := hd ⟨j, hj'⟩ ⟨i, hi⟩ (by simpa using hne)
          simp only [List.get_eq_getElem] at this ⊢
          rw [List.getElem_set_ne (by omega)]
          rw [hposE] at this
          exact this)
      rw [hfind] at hbody
      simp only [List.get_eq_getElem, List.getElem_set_self] at hbody
      have hc2E : c2 ≠ some e.color := by
        intro hq
        apply hc2
        show c2 = cs[i].color
        rw [hcolE, hq]
      exact hc2E (by simpa using hbody)

/-- Witness for C3 (amended): the iff instantiated on `lv6`'s initial
crates, whose cells are distinct. -/
theorem completion_check_spec_witness :
    allEndPositionsFilled lv6 s6.crates = true ↔ completionSpec lv6 s6.crates :=
  (completion_check_spec lv6 s6.crates (by decide)).1

/-- Counterexample to C6 as stated: with `width = 4, height = 4` and walls
on the border only, the goal cell (3,1) is itself a border wall, so the
push Right is blocked: the crate stays at (2,1), the actor stays at (1,1),
and the completion check stays false. -/
theorem scenario_4x4_counterexample :
    ¬ ((handleMovement lv4 s4 .right).crates.map (fun c => c.position) = [⟨3,1⟩] ∧
       (handleMovement lv4 s4 .right).bulldozerPos = ⟨2,1⟩ ∧
       (checkLevelCompletion lv4 (handleMovement lv4 s4 .right)).isLevelComplete = true) := by
  decide

/-- C6 (amended to the spec's "4×4 interior" reading, a 6×6 field with
walls on the border only): move Right pushes the red crate from (2,1) to
the goal (3,1), the actor ends at (2,1), and the completion check then
returns true. -/
theorem scenario_push_right_completes :
    (handleMovement lv6 s6 .right).crates = [⟨⟨3,1⟩, some "#FF0000"⟩] ∧
    (handleMovement lv6 s6 .right).bulldozerPos = ⟨2,1⟩ ∧
    allEndPositionsFilled lv6 (handleMovement lv6 s6 .right).crates = true ∧
    (checkLevelCompletion lv6 (handleMovement lv6 s6 .right)).isLevelComplete = true := by
  decide

/-- C4 demonstration: move Down (facing becomes Down), then move Right
(facing becomes Right), then undo.  The undo restores the position,
decrements the counter and clears the record, but the facing stays Right —
the record was written after `setDirection`, so the pre-move facing Down
is lost.  The spec requires undo to restore the prior facing. -/
theorem undo_restores_facing_bug :
    ((checkLevelCompletion lv6 (handleMovement lv6 s6 .down)).bulldozerDir = .down ∧
      (checkLevelCompletion lv6 (handleMovement lv6 s6 .down)).bulldozerPos = ⟨1,2⟩) ∧
    (undoLastMove (checkLevelCompletion lv6 (handleMovement lv6
        (checkLevelCompletion lv6 (handleMovement lv6 s6 .down)) .right))).bulldozerPos = ⟨1,2⟩ ∧
    (undoLastMove (checkLevelCompletion lv6 (handleMovement lv6
        (checkLevelCompletion lv6 (handleMovement lv6 s6 .down)) .right))).moveCount = 1 ∧
    (undoLastMove (checkLevelCompletion lv6 (handleMovement lv6
        (checkLevelCompletion lv6 (handleMovement lv6 s6 .down)) .right))).lastMove = none ∧
    (undoLastMove (checkLevelCompletion lv6 (handleMovement lv6
        (checkLevelCompletion lv6 (handleMovement lv6 s6 .down)) .right))).bulldozerDir = .right := by
  decide

/-- A copy of `lv6` whose single goal color does not match the crate
color, so the validator rejects it. -/
def lvBadColors : Level :=
  { number := 1, width := 6, height := 6,
    walls := [⟨0,0⟩, ⟨1,0⟩, ⟨2,0⟩, ⟨3,0⟩, ⟨4,0⟩, ⟨5,0⟩,
              ⟨0,1⟩, ⟨5,1⟩,
              ⟨0,2⟩, ⟨5,2⟩,
              ⟨0,3⟩, ⟨5,3⟩,
              ⟨0,4⟩, ⟨5,4⟩,
              ⟨0,5⟩, ⟨1,5⟩, ⟨2,5⟩, ⟨3,5⟩, ⟨4,5⟩, ⟨5,5⟩],
    crates := [⟨⟨2,1⟩, some "#FF0000"⟩],
    playerStartPosition := ⟨1,1⟩,
    endPositions := [⟨⟨3,1⟩, "#0000FF"⟩] }


theorem strLe_trans (a b c : String) (h1 : strLe a b) (h2 : strLe b c) :
    strLe a c := by
  simp only [strLe, decide_eq_true_eq] at *
  exact le_trans h1 h2

theorem strLe_total (a b : String) : strLe a b || strLe b a := by
  simp only [strLe, Bool.or_eq_true, decide_eq_true_eq]
  exact le_total a b

/-- Two string lists sort to the same list iff they are permutations of
each other (so JS's sorted-array comparison is a multiset equality test). -/
theorem mergeSort_eq_iff_perm (xs ys : List String) :
    xs.mergeSort strLe = ys.mergeSort strLe ↔ xs.Perm ys := by
  constructor
  · intro h
    have h1 := (List.mergeSort_perm xs strLe).symm
    rw [h] at h1
    exact h1.trans (List.mergeSort_perm ys strLe)
  · intro h
    have hs1 := @List.sorted_mergeSort String strLe strLe_trans strLe_total xs
    have hs2 := @List.sorted_mergeSort String strLe strLe_trans strLe_total ys
    have hperm : (xs.mergeSort strLe).Perm (ys.mergeSort strLe) :=
      ((List.mergeSort_perm xs strLe).trans h).trans (List.mergeSort_perm ys strLe).symm
    haveI : IsAntisymm String (fun a b => strLe a b = true) := by
      constructor
      intro a b h1 h2
      simp only [strLe, decide_eq_true_eq] at h1 h2
      exact le_antisymm h1 h2
    exact List.eq_of_perm_of_sorted hperm hs1 hs2

theorem filterMap_color_of_filter (cs : List Crate) :
    (cs.filter fun c => c.color ≠ none).filterMap (fun c => c.color) =
      cs.filterMap fun c => c.color := by
  induction cs with
  | nil => rfl
  | cons a tl ih =>
    simp only [ne_eq, decide_not] at ih
    cases h : a.color with
    | none => simp [List.filter_cons, List.filterMap_cons, h, ih]
    | some s => simp [List.filter_cons, List.filterMap_cons, h, ih]

theorem length_filterMap_color (cs : List Crate) :
    (cs.filterMap fun c => c.color).length =
      (cs.filter fun c => c.color ≠ none).length := by
  induction cs with
  | nil => rfl
  | cons a tl ih =>
    simp only [ne_eq, decide_not] at ih
    cases h : a.color with
    | none => simp [List.filter_cons, List.filterMap_cons, h, ih]
    | some s => simp [List.filter_cons, List.filterMap_cons, h, ih]

theorem validatePosition_ok_iff (lv : Level) (p : Pos) (name : String) :
    validatePosition lv p name = .ok () ↔ posInBounds lv p = true := by
  unfold validatePosition posInBounds
  split
  · rename_i h
    simp [h]
  · rename_i h
    simp only [Bool.not_eq_true] at h
    simp [h]

theorem validatePositionList_ok_iff (lv : Level) (name : String) :
    ∀ (i : Nat) (ps : List Pos),
      validatePositionList lv name i ps = .ok () ↔
        ∀ p ∈ ps, posInBounds lv p = true
  | _, [] => by simp [validatePositionList]
  | i, p :: rest => by
    rw [validatePositionList]
    cases hv : validatePosition lv p (name ++ " " ++ toString i) with
    | error e =>
      simp only [List.mem_cons]
      constructor
      · intro h; exact absurd h (by simp)
      · intro h
        have := (validatePosition_ok_iff lv p (name ++ " " ++ toString i)).mpr
          (h p (Or.inl rfl))
        rw [hv] at this
        exact absurd this (by simp)
    | ok u =>
      obtain ⟨⟩ := u
      have hb := (validatePosition_ok_iff lv p (name ++ " " ++ toString i)).mp hv
      rw [validatePositionList_ok_iff lv name (i + 1) rest]
      constructor
      · intro h q hq
        rcases List.mem_cons.mp hq with rfl | hq2
        · exact hb
        · exact h q hq2
      · intro h q hq
        exact h q (List.mem_cons_of_mem p hq)

/-- The validator invariants as the spec states them: dimensions within
[1,32], goal-color multiset equal to the colored-crate-color multiset, and
every referenced position within bounds. -/
def GoodLevel (lv : Level) : Prop :=
  (1 ≤ lv.width ∧ lv.width ≤ 32) ∧
  (1 ≤ lv.height ∧ lv.height ≤ 32) ∧
  (lv.crates.filterMap fun c => c.color).Perm (lv.endPositions.map fun e => e.color) ∧
  posInBounds lv lv.playerStartPosition = true ∧
  (∀ w ∈ lv.walls, posInBounds lv w = true) ∧
  (∀ c ∈ lv.crates, posInBounds lv c.position = true) ∧
  (∀ e ∈ lv.endPositions, posInBounds lv e.position = true)

instance (lv : Level) : Decidable (GoodLevel lv) := by
  unfold GoodLevel
  infer_instance

theorem validateLevel_ok_iff (lv : Level) :
    validateLevel lv = .ok true ↔ GoodLevel lv := by
  unfold validateLevel
  simp only []
  split
  · rename_i hwidth
    simp only [Bool.or_eq_true, decide_eq_true_eq] at hwidth
    apply iff_of_false (by simp)
    rintro ⟨⟨h1, h2⟩, -⟩
    omega
  · rename_i hwidth
    simp only [Bool.or_eq_true, decide_eq_true_eq, not_or] at hwidth
    split
    · rename_i hheight
      simp only [Bool.or_eq_true, decide_eq_true_eq] at hheight
      apply iff_of_false (by simp)
      rintro ⟨-, ⟨h1, h2⟩, -⟩
      omega
    · rename_i hheight
      simp only [Bool.or_eq_true, decide_eq_true_eq, not_or] at hheight
      split
      · rename_i hlen
        apply iff_of_false (by simp)
        rintro ⟨-, -, hperm, -⟩
        apply hlen
        have := hperm.length_eq
        rw [length_filterMap_color] at this
        simp only [List.length_map] at this
        omega
      · rename_i hlen
        split
        · rename_i hsort
          apply iff_of_false (by simp)
          rintro ⟨-, -, hperm, -⟩
          apply hsort
          rw [mergeSort_eq_iff_perm, filterMap_color_of_filter]
          exact hperm
        · rename_i hsort
          rw [not_not] at hsort
          have hperm : (lv.crates.filterMap fun c => c.color).Perm
              (lv.endPositions.map fun e => e.color) := by
            rw [← filterMap_color_of_filter, ← mergeSort_eq_iff_perm]
            exact hsort
          split
          · rename_i e heq
            apply iff_of_false (by simp)
            rintro ⟨-, -, -, hstart, -⟩
            have := (validatePosition_ok_iff lv lv.playerStartPosition "player start").mpr hstart
            rw [heq] at this
            exact absurd this (by simp)
          · rename_i u heq
            have hstart := (validatePosition_ok_iff lv lv.playerStartPosition "player start").mp
              (by rw [heq])
            split
            · rename_i e heq2
              apply iff_of_false (by simp)
              rintro ⟨-, -, -, -, hwalls, -⟩
              have := (validatePositionList_ok_iff lv "wall" 0 lv.walls).mpr hwalls
              rw [heq2] at this
              exact absurd this (by simp)
            · rename_i u2 heq2
              have hwalls := (validatePositionList_ok_iff lv "wall" 0 lv.walls).mp
                (by rw [heq2])
              split
              · rename_i e heq3
                apply iff_of_false (by simp)
                rintro ⟨-, -, -, -, -, hcrates, -⟩
                have := (validatePositionList_ok_iff lv "crate" 0
                  (lv.crates.map fun c => c.position)).mpr
                  (by
                    intro p hp
                    obtain ⟨c, hc, rfl⟩ := List.mem_map.mp hp
                    exact hcrates c hc)
                rw [heq3] at this
                exact absurd this (by simp)
              · rename_i u3 heq3
                have hcrates := (validatePositionList_ok_iff lv "crate" 0
                  (lv.crates.map fun c => c.position)).mp (by rw [heq3])
                split
                · rename_i e heq4
                  apply iff_of_false (by simp)
                  rintro ⟨-, -, -, -, -, -, hends⟩
                  have := (validatePositionList_ok_iff lv "end position" 0
                    (lv.endPositions.map fun e => e.position)).mpr
                    (by
                      intro p hp
                      obtain ⟨g, hg, rfl⟩ := List.mem_map.mp hp
                      exact hends g hg)
                  rw [heq4] at this
                  exact absurd this (by simp)
                · rename_i u4 heq4
                  have hends := (validatePositionList_ok_iff lv "end position" 0
                    (lv.endPositions.map fun e => e.position)).mp (by rw [heq4])
                  apply iff_of_true rfl
                  refine ⟨⟨by omega, by omega⟩, ⟨by omega, by omega⟩, hperm, hstart, hwalls, ?_, ?_⟩
                  · intro c hc
                    exact hcrates c.position (List.mem_map.mpr ⟨c, hc, rfl⟩)
                  · intro g hg
                    exact hends g.position (List.mem_map.mpr ⟨g, hg, rfl⟩)

theorem validateLevel_ne_ok_false (lv : Level) :
    validateLevel lv ≠ .ok false := by
  intro h
  unfold validateLevel at h
  simp only [] at h
  repeat' split at h
  all_goals simp_all

/-- C7: the validator fails with an error exactly when an invariant is
violated (dimensions outside [1,32], color multisets unequal — which
subsumes the count check — or a referenced position out of bounds), and
returns `true` exactly on levels satisfying all invariants. -/
theorem validator_error_iff (lv : Level) :
    (validateLevel lv = .ok true ↔ GoodLevel lv) ∧
    ((∃ e, validateLevel lv = .error e) ↔ ¬ GoodLevel lv) := by
  refine ⟨validateLevel_ok_iff lv, ?_⟩
  cases h : validateLevel lv with
  | error e =>
    apply iff_of_true ⟨e, rfl⟩
    intro hg
    have := (validateLevel_ok_iff lv).mpr hg
    rw [h] at this
    exact absurd this (by simp)
  | ok b =>
    cases b with
    | false => exact absurd h (validateLevel_ne_ok_false lv)
    | true =>
      apply iff_of_false (by simp)
      rw [not_not]
      exact (validateLevel_ok_iff lv).mp h

/-- C5 demonstration: `lvBadColors` violates the validator's color
invariant, yet the load path (`loadLevel` → `initializeLevel`) never runs
`validateLevel`, and a move on the loaded level is accepted as usual (the
actor moves and the move counter increments). -/
theorem load_accepts_invalid_level :
    (validateLevel lvBadColors).isOk = false ∧
    moveOutcome lvBadColors (initLevelState lvBadColors freshComponent) .down = .moved ∧
    (handleMovement lvBadColors (initLevelState lvBadColors freshComponent) .down).moveCount = 1 ∧
    (handleMovement lvBadColors (initLevelState lvBadColors freshComponent) .down).bulldozerPos = ⟨1,2⟩ := by
  refine ⟨?_, by decide, by decide, by decide⟩
  have hbad : ¬ GoodLevel lvBadColors := by decide
  cases h : validateLevel lvBadColors with
  | error e => rfl
  | ok b =>
    cases b with
    | false => exact absurd h (validateLevel_ne_ok_false lvBadColors)
    | true => exact absurd ((validateLevel_ok_iff lvBadColors).mp h) hbad

theorem distinct_set_of (cs : List Crate) (i : Nat) (c : Crate)
    (hother : ∀ (j : Nat) (hj : j < cs.length), j ≠ i →
      (cs.get ⟨j, hj⟩).position ≠ c.position)
    (hd : DistinctCrates cs) : DistinctCrates (cs.set i c) := by
  intro a b hne
  obtain ⟨a, ha⟩ := a
  obtain ⟨b, hb⟩ := b
  have ha' : a < cs.length := by simpa using ha
  have hb' : b < cs.length := by simpa using hb
  simp only [List.get_eq_getElem] at *
  by_cases hai : a = i
  · subst hai
    rw [List.getElem_set_self (by omega), List.getElem_set_ne (by omega)]
    intro hq
    exact hother b hb' (by omega) hq.symm
  · by_cases hbi : b = i
    · subst hbi
      rw [List.getElem_set_self (by omega), List.getElem_set_ne (by omega)]
      exact hother a ha' (by omega)
    · rw [List.getElem_set_ne (by omega), List.getElem_set_ne (by omega)]
      exact hd ⟨a, ha'⟩ ⟨b, hb'⟩ (by simpa using hne)

/-- The engine invariant carried through a session: crates sit on pairwise
distinct cells, and whatever the undo slot would restore also has crates
on pairwise distinct cells. -/
def SessionInv (s : GameState) : Prop :=
  DistinctCrates s.crates ∧
  ∀ m, s.lastMove = some m → DistinctCrates (restoreCrates s.crates m)

theorem find?_enum_mem (cs : List Crate) (p : Pos) (i : Nat) (c : Crate)
    (hfind : cs.enum.find? (fun jc => jc.2.position == p) = some (i, c)) :
    ∃ hi : i < cs.length, cs.get ⟨i, hi⟩ = c := by
  have hmem := List.mem_of_find?_eq_some hfind
  rw [List.mk_mem_enum_iff_getElem?] at hmem
  rw [List.getElem?_eq_some_iff] at hmem
  obtain ⟨hi, hc⟩ := hmem
  exact ⟨hi, hc⟩

theorem anotherCrateAt_false (cs : List Crate) (i : Nat) (p : Pos)
    (han : anotherCrateAt cs i p = false) :
    ∀ (j : Nat) (hj : j < cs.length), j ≠ i → (cs.get ⟨j, hj⟩).position ≠ p := by
  intro j hj hne hpos
  rw [anotherCrateAt, ← Bool.not_eq_true, List.any_eq_true] at han
  apply han
  refine ⟨(j, cs.get ⟨j, hj⟩), ?_, ?_⟩
  · rw [List.mk_mem_enum_iff_getElem?]
    simp
  · simp [hne]
    exact hpos

theorem inv_handleMovement (lv : Level) (s : GameState) (d : Direction)
    (h : SessionInv s) : SessionInv (handleMovement lv s d) := by
  cases hc : s.isLevelComplete with
  | true => rw [handleMovement, aux_complete lv s d hc]; exact h
  | false =>
    cases hob : oobB lv (targetOf s d) with
    | true => rw [handleMovement, aux_oob lv s d hc hob]; exact h
    | false =>
      cases hw : isWall lv (targetOf s d) with
      | true => rw [handleMovement, aux_wall lv s d hc hob hw]; exact h
      | false =>
        cases hfind : s.crates.enum.find? (fun jc => jc.2.position == targetOf s d) with
        | none =>
          rw [handleMovement, aux_free lv s d hc hob hw hfind]
          exact ⟨h.1, fun m hm => by
            obtain rfl : _ = m := Option.some.inj hm
            exact h.1⟩
        | some ic =>
          obtain ⟨i, c⟩ := ic
          cases h2 : oobB lv (crateTargetOf s d) with
          | true => rw [handleMovement, aux_push_oob lv s d i c hc hob hw hfind h2]; exact h
          | false =>
            cases hw2 : isWall lv (crateTargetOf s d) with
            | true => rw [handleMovement, aux_push_wall lv s d i c hc hob hw hfind h2 hw2]; exact h
            | false =>
              cases han : anotherCrateAt s.crates i (crateTargetOf s d) with
              | true => rw [handleMovement, aux_push_other lv s d i c hc hob hw hfind h2 hw2 han]; exact h
              | false =>
                rw [handleMovement, aux_push lv s d i c hc hob hw hfind h2 hw2 han]
                obtain ⟨hi, hci⟩ := find?_enum_mem s.crates (targetOf s d) i c hfind
                have hother := anotherCrateAt_false s.crates i (crateTargetOf s d) han
                constructor
                · exact distinct_set_of s.crates i _ (fun j hj hne =>
                    hother j hj hne) h.1
                · intro m hm
                  obtain rfl : _ = m := Option.some.inj hm
                  show DistinctCrates (restoreCrates
                    (s.crates.set i { c with position := crateTargetOf s d }) _)
                  rw [restoreCrates]
                  simp only []
                  rw [List.get?_eq_getElem?, List.getElem?_set_self (by simpa using hi)]
                  simp only []
                  rw [List.set_set]
                  apply distinct_set_of s.crates i { position := c.position, color := c.color }
                  · intro j hj hne
                    have := h.1 ⟨j, hj⟩ ⟨i, hi⟩ (by simpa using hne)
                    have hciE : s.crates[i] = c := hci
                    simp only [List.get_eq_getElem] at this ⊢
                    rw [hciE] at this
                    exact this
                  · exact h.1

theorem inv_checkLevelCompletion (lv : Level) (s : GameState)
    (h : SessionInv s) : SessionInv (checkLevelCompletion lv s) := by
  unfold checkLevelCompletion
  split
  · exact h
  · split
    · exact h
    · exact h

theorem inv_undo (s : GameState) (h : SessionInv s) :
    SessionInv (undoLastMove s) := by
  unfold undoLastMove
  cases hm : s.lastMove with
  | none => exact h
  | some m =>
    refine ⟨h.2 m hm, ?_⟩
    intro m' hm'
    exact absurd hm' (by simp)

theorem inv_applyAction (lv : Level) (s : GameState) (a : GAction)
    (h : SessionInv s) : SessionInv (applyAction lv s a) := by
  cases a with
  | move d => exact inv_checkLevelCompletion lv _ (inv_handleMovement lv s d h)
  | undo => exact inv_undo s h

theorem inv_runActions (lv : Level) :
    ∀ (as : List GAction) (s : GameState), SessionInv s →
      SessionInv (runActions lv s as)
  | [], _, h => h
  | a :: rest, s, h =>
    inv_runActions lv rest (applyAction lv s a) (inv_applyAction lv s a h)

/-- C8: starting a level in a fresh session (no retained undo record) with
crates on pairwise distinct cells, no sequence of moves and undos can ever
put two crates on the same cell. -/
theorem crates_never_collide (lv : Level) (prev : GameState)
    (hprev : prev.lastMove = none)
    (hd : DistinctCrates (initLevelState lv prev).crates) :
    ∀ as : List GAction,
      DistinctCrates ((runActions lv (initLevelState lv prev) as).crates) := by
  intro as
  have hinv : SessionInv (initLevelState lv prev) := by
    refine ⟨hd, ?_⟩
    intro m hm
    rw [show (initLevelState lv prev).lastMove = prev.lastMove from rfl, hprev] at hm
    exact absurd hm (by simp)
  exact (inv_runActions lv as _ hinv).1

/-- Witness for C8: pushing the crate and undoing in `lv6`. -/
theorem crates_never_collide_witness :
    DistinctCrates ((runActions lv6 (initLevelState lv6 freshComponent)
      [.move .right, .undo, .move .down]).crates) :=
  crates_never_collide lv6 freshComponent rfl (by decide)
    [.move .right, .undo, .move .down]

/-- C10: once the completion flag is set, a move attempt is a complete
no-op (not even the facing changes) and the deferred completion check is
the identity, but undo still applies in full: it restores the recorded
actor fields and crate, clears the record, decrements the counter (floored
at zero), and leaves the completion flag set. -/
theorem complete_freezes_moves_but_not_undo (lv : Level) (s : GameState)
    (m : UndoRecord) (d : Direction)
    (hc : s.isLevelComplete = true) (hm : s.lastMove = some m) :
    handleMovement lv s d = s ∧
    moveOutcome lv s d = .completeNoop ∧
    checkLevelCompletion lv s = s ∧
    (undoLastMove s).isLevelComplete = true ∧
    undoLastMove s =
      { s with
          bulldozerPos := m.bulldozerPos,
          bulldozerDir := m.bulldozerDirection,
          crates := restoreCrates s.crates m,
          lastMove := none,
          moveCount := if s.moveCount > 0 then s.moveCount - 1 else s.moveCount } := by
  have hu : undoLastMove s =
      { s with
          bulldozerPos := m.bulldozerPos,
          bulldozerDir := m.bulldozerDirection,
          crates := restoreCrates s.crates m,
          lastMove := none,
          moveCount := if s.moveCount > 0 then s.moveCount - 1 else s.moveCount } := by
    rw [undoLastMove, hm]
  refine ⟨?_, ?_, ?_, ?_, hu⟩
  · rw [handleMovement, aux_complete lv s d hc]
  · rw [moveOutcome, aux_complete lv s d hc]
  · rw [checkLevelCompletion]
    simp [hc]
  · rw [hu, hc]

/-- The completed `lv6` session state right after the winning push. -/
def s6done : GameState :=
  runActions lv6 (initLevelState lv6 freshComponent) [.move .right]

/-- Witness for C10: the completed `lv6` state still accepts the undo. -/
theorem complete_freezes_moves_but_not_undo_witness :
    handleMovement lv6 s6done .down = s6done ∧
    (undoLastMove s6done).isLevelComplete = true := by
  have h := complete_freezes_moves_but_not_undo lv6 s6done
    ⟨⟨1,1⟩, .right, some ⟨2,1⟩, some 0⟩ .down (by decide) (by decide)
  exact ⟨h.1, h.2.2.2.1⟩

end DozerDuty
